import Mathlib

/-!
Verification of the TTB label-verification matching engine
(`src/verification.py`) against its natural-language specification.

The Python engine is shallowly embedded below.  Strings are modelled as
Lean `String`s (lists of characters); the ASCII fragment of Python's
`str.strip`/`str.lower`/`str.split` and of the `regex` module's `\s`
class is modelled explicitly, which covers every character the program,
its tests and the specification exercise.  Fallible code (the uncaught
`IndexError` that `process.extract(...)[0]` can raise inside
`check_fuzzy`, and everything downstream of it) is modelled with
`Option`: `none` is an uncaught Python exception.
-/

/-- The ASCII whitespace characters recognised by Python's `str.strip`,
`str.split` and by the `\s` class of the `regex` module. -/
def isSpaceChar (c : Char) : Bool :=
  c = ' ' || c = '\t' || c = '\n' || c = '\r' || c = '\x0b' || c = '\x0c'

/-- The punctuation class `[.,\-()_\[\]]` of `normalize_text`
(src/verification.py line 32). -/
def isPunctChar (c : Char) : Bool :=
  c = '.' || c = ',' || c = '-' || c = '(' || c = ')' || c = '_' || c = '[' || c = ']'

/-- Drop trailing whitespace, keeping the list a prefix of the input
(the right half of Python's `str.strip`). -/
def dropTrailingSpace : List Char → List Char
  | [] => []
  | c :: cs =>
    match dropTrailingSpace cs with
    | [] => if isSpaceChar c then [] else [c]
    | d :: ds => c :: d :: ds

/-- Python's `str.strip()` (ASCII whitespace). -/
def stripChars (l : List Char) : List Char :=
  dropTrailingSpace (l.dropWhile isSpaceChar)

/-- Python's `str.lower()` on the ASCII range (`Char.toLower` lowers
exactly the basic latin letters, as Python does on ASCII input). -/
def lowerChars (l : List Char) : List Char :=
  l.map Char.toLower

/-- `regex.sub(r"[.,\-()_\[\]]", " ", text)`: each punctuation character
becomes a single space (src/verification.py line 32). -/
def punctToSpace (l : List Char) : List Char :=
  l.map fun c => if isPunctChar c then ' ' else c

/-- Worker for `regex.sub(r"\s+", " ", text)`: the flag records whether
the previous character was whitespace, so each maximal whitespace run is
emitted as one single space. -/
def collapseGo : Bool → List Char → List Char
  | _, [] => []
  | prevSpace, c :: cs =>
    if isSpaceChar c then
      if prevSpace then collapseGo true cs else ' ' :: collapseGo true cs
    else
      c :: collapseGo false cs

/-- `regex.sub(r"\s+", " ", text)` (src/verification.py line 33). -/
def collapseSpaces (l : List Char) : List Char :=
  collapseGo false l

/-- `normalize_text` (src/verification.py lines 22-34):
`text.strip().lower()`, then punctuation to single spaces, then
whitespace runs collapsed to single spaces.  Note there is no final
strip. -/
def normalize_text (s : String) : String :=
  String.mk (collapseSpaces (punctToSpace (lowerChars (stripChars s.data))))

/-- Python's `str.split()` (no separator): whitespace-separated words,
empty words discarded.  The accumulator holds the current word
reversed. -/
def splitWordsGo : List Char → List Char → List (List Char)
  | acc, [] => if acc.isEmpty then [] else [acc.reverse]
  | acc, c :: cs =>
    if isSpaceChar c then
      if acc.isEmpty then splitWordsGo [] cs else acc.reverse :: splitWordsGo [] cs
    else
      splitWordsGo (c :: acc) cs

/-- `string.split()` as used in `substrings_by_similar_token_length`
and `check_fuzzy` (src/verification.py lines 64 and 150). -/
def splitWords (l : List Char) : List (List Char) :=
  splitWordsGo [] l

/-- `" ".join(tokens)`. -/
def joinSpace (tokens : List (List Char)) : List Char :=
  List.intercalate [' '] tokens

/-- `substrings_by_similar_token_length` (src/verification.py lines
54-69): all windows of `token_length - 1`, `token_length` and
`token_length + 1` whitespace-split tokens, skipping window sizes that
are not positive or not smaller than the token count.  (Python iterates
`range(token_length - 1, token_length + 2)`; with truncated `Nat`
subtraction the size-0 entry can appear twice for `token_length = 0`,
but sizes `≤ 0` are filtered out either way.) -/
def substrings_by_similar_token_length (l : List Char) (token_length : Nat) : List (List Char) :=
  let tokens := splitWords l
  ([token_length - 1, token_length, token_length + 1].filter
      fun n => 0 < n && n < tokens.length).flatMap
    fun n => (List.range (tokens.length - n + 1)).map
      fun i => joinSpace ((tokens.drop i).take n)

/-- Length of a longest common subsequence, with explicit fuel so that
the definition is structurally recursive and kernel-reducible; fuel
`a.length + b.length` always suffices since every step consumes at
least one character. -/
def lcsLenFuel : Nat → List Char → List Char → Nat
  | 0, _, _ => 0
  | _ + 1, [], _ => 0
  | _ + 1, _ :: _, [] => 0
  | fuel + 1, a :: as, b :: bs =>
    if a = b then lcsLenFuel fuel as bs + 1
    else max (lcsLenFuel fuel (a :: as) bs) (lcsLenFuel fuel as (b :: bs))

/-- Longest-common-subsequence length of two character lists. -/
def lcsLen (a b : List Char) : Nat :=
  lcsLenFuel (a.length + b.length) a b

/-- rapidfuzz's `fuzz.ratio`: the normalized Indel similarity as a
percentage.  The Indel distance is `|a| + |b| - 2 * lcs(a, b)`, so the
similarity is `200 * lcs(a, b) / (|a| + |b|)`; two empty strings score
100. -/
def fuzzScore (a b : List Char) : ℚ :=
  if a.length + b.length = 0 then 100
  else (200 * (lcsLen a b : ℚ)) / ((a.length : ℚ) + (b.length : ℚ))

/-- Python's `round(x, 1)` on the score (src/verification.py line 153),
modelled as rounding to the nearest tenth.  (Python rounds exact ties
to even; no theorem below evaluates a score at a tie.) -/
def round1 (q : ℚ) : ℚ :=
  (round (q * 10) : ℤ) / 10

/-- Decimal rendering with one fractional digit of a score already
rounded to a tenth, as Python's f-string prints the rounded float
(e.g. `95.0`, `33.3`). -/
def ratioString (q : ℚ) : String :=
  let k : ℤ := round (q * 10)
  toString (k / 10) ++ "." ++ toString (k % 10)

/-- Worker for `process.extract(..., limit=1)`: keeps the candidate with
the strictly greatest score, so ties are broken in favour of the first
candidate in generation order. -/
def extractBestGo (query : List Char) (best : List Char × ℚ) : List (List Char) → List Char × ℚ
  | [] => best
  | c :: cs =>
    let sc := fuzzScore query c
    if best.2 < sc then extractBestGo query (c, sc) cs else extractBestGo query best cs

/-- `process.extract(query, choices, limit=1, scorer=fuzz.ratio)`
followed by `[0]` (src/verification.py lines 148-152): `none` when
`choices` is empty, in which case the Python subscript raises
`IndexError`. -/
def extractBest (query : List Char) : List (List Char) → Option (List Char × ℚ)
  | [] => none
  | c :: cs => some (extractBestGo query (c, fuzzScore query c) cs)

/-!
The two exact-ish strategies call
`regex.search(fr"(?<=^|\s){target}(?=$|\s)", source)`, interpolating the
raw target into the pattern without `regex.escape`.  The model below
covers the pattern fragment those interpolated targets generate: every
character of the target is a literal except `.`, which the regex engine
treats as "any character but newline".  (Targets containing other
metacharacters — `(`, `*`, `+`, ... — make the source raise
`regex.error` or change the pattern's shape entirely; they are outside
this model and are what makes claim C1's totality fail, see
`check_fuzzy` for the crash that is modelled.)
-/

/-- One pattern character against one subject character: `.` matches
anything except a newline, everything else matches literally. -/
def patCharMatch (p c : Char) : Bool :=
  if p = '.' then c != '\n' else p == c

/-- Consume the interpolated target at the head of the subject,
returning the remaining subject on success. -/
def patConsume : List Char → List Char → Option (List Char)
  | [], rest => some rest
  | _ :: _, [] => none
  | p :: ps, c :: cs => if patCharMatch p c then patConsume ps cs else none

/-- The lookahead `(?=$|\s)`: end of subject or a whitespace
character. -/
def rightBound : List Char → Bool
  | [] => true
  | c :: _ => isSpaceChar c

/-- Does the pattern match at the current position, with the right
boundary satisfied? -/
def matchHere (pat s : List Char) : Bool :=
  match patConsume pat s with
  | some rest => rightBound rest
  | none => false

/-- Scan all positions; `leftOk` is the lookbehind `(?<=^|\s)`: true at
the start of the subject or just after a whitespace character. -/
def searchWSGo (pat : List Char) : Bool → List Char → Bool
  | leftOk, [] => leftOk && matchHere pat []
  | leftOk, c :: cs => (leftOk && matchHere pat (c :: cs)) || searchWSGo pat (isSpaceChar c) cs

/-- `regex.search(fr"(?<=^|\s){pat}(?=$|\s)", s) is not None` for the
modelled pattern fragment. -/
def searchWS (pat s : List Char) : Bool :=
  searchWSGo pat true s

/-- Modelled from the spec: "searches for `target` as a
whitespace-bounded substring of `source` (boundary = start/end-of-string
or a whitespace character)".  This is the literal (verbatim) search the
spec describes for the Exact strategy — every target character matches
only itself — to be compared with `check_exact`, which interpolates the
target into a regex pattern instead. -/
def ws_bounded_occurs (target source : String) : Bool :=
  go true source.data
where
  /-- Literal counterpart of `matchHere`. -/
  litHere (pat s : List Char) : Bool :=
    match pat, s with
    | [], rest => rightBound rest
    | _ :: _, [] => false
    | p :: ps, c :: cs => p == c && litHere ps cs
  /-- Literal counterpart of `searchWSGo`. -/
  go : Bool → List Char → Bool
    | leftOk, [] => leftOk && litHere target.data []
    | leftOk, c :: cs => (leftOk && litHere target.data (c :: cs)) || go (isSpaceChar c) cs

/-- `VerificationInput` (src/verification.py lines 9-14). -/
structure VerificationInput where
  brand_name : String
  product_type : String
  abv : String
  volume : String
deriving DecidableEq

/-- `VerificationResult` (src/verification.py lines 16-20).  The Python
field `match` is a Lean keyword, hence the guillemets. -/
structure VerificationResult where
  «match» : Bool
  expected : String
  comment : String
deriving DecidableEq

/-- `check_exact` (src/verification.py lines 72-96): empty-input guard,
then the whitespace-bounded regex search on the raw strings. -/
def check_exact (target_text source_text : String) : VerificationResult :=
  if target_text = "" ∨ source_text = "" then
    ⟨false, target_text, "Target text is empty"⟩
  else
    ⟨searchWS target_text.data source_text.data, target_text,
      if searchWS target_text.data source_text.data then "Exact match" else "No match"⟩

/-- `check_normalized` (src/verification.py lines 99-125): empty-input
guard, then the same search on the normalized strings. -/
def check_normalized (target_text source_text : String) : VerificationResult :=
  if target_text = "" ∨ source_text = "" then
    ⟨false, target_text, "Target text is empty"⟩
  else
    ⟨searchWS (normalize_text target_text).data (normalize_text source_text).data, target_text,
      if searchWS (normalize_text target_text).data (normalize_text source_text).data then
        "Normalized text match"
      else "No match"⟩

/-- `check_fuzzy` (src/verification.py lines 128-160): empty-input
guard, then the best fuzzy score over token-length windows of the
normalized source.  `none` models the uncaught `IndexError` raised by
`process.extract(...)[0]` when the window list is empty. -/
def check_fuzzy (target_text source_text : String) : Option VerificationResult :=
  if target_text = "" ∨ source_text = "" then
    some ⟨false, target_text, "Target text is empty"⟩
  else
    match extractBest (normalize_text target_text).data
        (substrings_by_similar_token_length (normalize_text source_text).data
          (splitWords (normalize_text target_text).data).length) with
    | none => none
    | some (best_text, best_ratio) =>
      some ⟨decide (92 ≤ round1 best_ratio), target_text,
        if decide (92 ≤ round1 best_ratio) then
          "Fuzzy match: '" ++ String.mk best_text ++ "' (" ++ ratioString (round1 best_ratio) ++ "%)"
        else
          "No match. Closest text: '" ++ String.mk best_text ++ "' (" ++ ratioString (round1 best_ratio) ++ "%)"⟩

/-- `check_matches_cascade` (src/verification.py lines 163-186):
empty-input guard, then Exact, Normalized, Fuzzy in order, returning the
first matching result; when none matches, the loop variable still holds
the Fuzzy result, which is returned verbatim. -/
def check_matches_cascade (target_text source_text : String) : Option VerificationResult :=
  if target_text = "" ∨ source_text = "" then
    some ⟨false, target_text, "Target text is empty"⟩
  else if (check_exact target_text source_text).«match» then
    some (check_exact target_text source_text)
  else if (check_normalized target_text source_text).«match» then
    some (check_normalized target_text source_text)
  else
    check_fuzzy target_text source_text

/-- `verify_brand` (src/verification.py lines 189-200). -/
def verify_brand (expected ocr_text : String) : Option VerificationResult :=
  check_matches_cascade expected ocr_text

/-- `verify_product_type` (src/verification.py lines 202-213). -/
def verify_product_type (expected ocr_text : String) : Option VerificationResult :=
  check_matches_cascade expected ocr_text

/-- `verify_abv` (src/verification.py lines 215-226): the target is the
declared value with a percent suffix, `f"{expected}%"`. -/
def verify_abv (expected ocr_text : String) : Option VerificationResult :=
  check_matches_cascade (expected ++ "%") ocr_text

/-- `verify_volume` (src/verification.py lines 228-239). -/
def verify_volume (expected ocr_text : String) : Option VerificationResult :=
  check_matches_cascade expected ocr_text

/-- The warning title (src/verification.py line 252). -/
def title_text : String := "GOVERNMENT WARNING"

/-- The pregnancy-risk clause (src/verification.py line 253). -/
def pregnancy_text : String :=
  "According to the Surgeon General, women should not drink alcoholic beverages during pregnancy because of the risk of birth defects"

/-- The driving/health-impairment clause (src/verification.py line 254). -/
def drive_health_text : String :=
  "Consumption of alcoholic beverages impairs your ability to drive a car or operate machinery, and may cause health problems"

/-- `verify_gov_warning` (src/verification.py lines 241-268): the three
fixed sections are each run through the full cascade against the whole
OCR text; `match` is their conjunction and the failure comment joins the
`expected` fields of the failed sub-results with newlines. -/
def verify_gov_warning (ocr_text : String) : Option VerificationResult := do
  let title_result ← check_matches_cascade title_text ocr_text
  let pregnancy_result ← check_matches_cascade pregnancy_text ocr_text
  let drive_health_result ← check_matches_cascade drive_health_text ocr_text
  let results := [title_result, pregnancy_result, drive_health_result]
  let all_matched := results.all fun r => r.«match»
  pure ⟨all_matched,
    String.intercalate "\n" (results.map fun r => r.expected),
    if all_matched then "Full government warning found"
    else "Sections not found: " ++
      String.intercalate "\n" ((results.filter fun r => !r.«match»).map fun r => r.expected)⟩

/-- `verify_all` (src/verification.py lines 270-294): the OCR text is
normalized once, every field verifier runs against it, and the Python
`dict` (insertion-ordered) is modelled as an association list with the
same key order. -/
def verify_all (input_data : VerificationInput) (ocr_text : String) :
    Option (List (String × VerificationResult)) := do
  let ocr_text_norm := normalize_text ocr_text
  let brand_name_result ← verify_brand input_data.brand_name ocr_text_norm
  let product_type_result ← verify_product_type input_data.product_type ocr_text_norm
  let abv_result ← verify_abv input_data.abv ocr_text_norm
  let volume_result ← verify_volume input_data.volume ocr_text_norm
  let gov_warning_result ← verify_gov_warning ocr_text_norm
  pure [("brand_name", brand_name_result),
        ("product_type", product_type_result),
        ("abv", abv_result),
        ("volume", volume_result),
        ("warning", gov_warning_result)]

/-- Prefix test on the underlying character lists (used to state the
self-consistency invariant: a comment "cites the closest candidate"
when it starts with the fuzzy near-miss prefix). -/
def strHasPrefix (p s : String) : Bool :=
  p.data.isPrefixOf s.data

/-- The self-consistency invariant of §3 of the spec, read off the
engine's concrete comment strings: a matching result names its strategy;
a non-matching result either carries the empty-input diagnosis or cites
the closest fuzzy candidate. -/
def self_consistent (r : VerificationResult) : Bool :=
  if r.«match» then
    r.comment == "Exact match" || r.comment == "Normalized text match" ||
      strHasPrefix "Fuzzy match: " r.comment
  else
    r.comment == "Target text is empty" ||
      strHasPrefix "No match. Closest text: " r.comment

/-! ### Helper lemmas -/

theorem isPrefixOf_append (p t : List Char) : p.isPrefixOf (p ++ t) = true := by
  induction p with
  | nil => simp [List.isPrefixOf]
  | cons a as ih => simp [List.isPrefixOf, ih]

theorem check_exact_expected (t s : String) : (check_exact t s).expected = t := by
  unfold check_exact
  split <;> rfl

theorem check_normalized_expected (t s : String) : (check_normalized t s).expected = t := by
  unfold check_normalized
  split <;> rfl

theorem check_fuzzy_expected (t s : String) (r : VerificationResult)
    (h : check_fuzzy t s = some r) : r.expected = t := by
  unfold check_fuzzy at h
  split at h
  · simp only [Option.some.injEq] at h
    subst h
    rfl
  · split at h
    · exact absurd h (by simp)
    · simp only [Option.some.injEq] at h
      subst h
      rfl

theorem cascade_expected (t s : String) (r : VerificationResult)
    (h : check_matches_cascade t s = some r) : r.expected = t := by
  unfold check_matches_cascade at h
  split at h
  · simp only [Option.some.injEq] at h
    subst h
    rfl
  · split at h
    · simp only [Option.some.injEq] at h
      subst h
      exact check_exact_expected t s
    · split at h
      · simp only [Option.some.injEq] at h
        subst h
        exact check_normalized_expected t s
      · exact check_fuzzy_expected t s r h

/-! ### Claim theorems -/

/-- C1: contrary to the claim, the three strategies are not total over
non-empty strings: `check_fuzzy "a" "b"` reaches
`process.extract(...)[0]` with an empty candidate list (the normalized
source has too few tokens to yield any window) and raises `IndexError`,
modelled here as `none`. -/
theorem check_fuzzy_crashes_on_short_source :
    check_fuzzy "a" "b" = none ∧
    substrings_by_similar_token_length (normalize_text "b").data 1 = [] := by
  decide

/-- C2: for non-empty target and source the cascade tries Exact, then
Normalized, then Fuzzy: a matching Exact result (whose comment is
"Exact match") is returned as is; a matching Normalized result is
returned when Exact failed; and when both failed the cascade's value is
exactly `check_fuzzy`'s value. -/
theorem cascade_fixed_order (t s : String) (ht : t ≠ "") (hs : s ≠ "") :
    ((check_exact t s).«match» = true →
      check_matches_cascade t s = some (check_exact t s) ∧
      (check_exact t s).comment = "Exact match") ∧
    ((check_exact t s).«match» = false → (check_normalized t s).«match» = true →
      check_matches_cascade t s = some (check_normalized t s)) ∧
    ((check_exact t s).«match» = false → (check_normalized t s).«match» = false →
      check_matches_cascade t s = check_fuzzy t s) := by
  have hg : ¬ (t = "" ∨ s = "") := by simp [ht, hs]
  refine ⟨fun h => ⟨?_, ?_⟩, fun h1 h2 => ?_, fun h1 h2 => ?_⟩
  · simp [check_matches_cascade, hg, h]
  · simp only [check_exact, if_neg hg] at h ⊢
    simp [h]
  · simp [check_matches_cascade, hg, h1, h2]
  · simp [check_matches_cascade, hg, h1, h2]

/-- Witness for C2 at target "a", source "a": the Exact strategy
matches, so the cascade returns its result with comment "Exact match". -/
theorem cascade_fixed_order_witness :
    check_matches_cascade "a" "a" = some (check_exact "a" "a") ∧
    (check_exact "a" "a").comment = "Exact match" :=
  (cascade_fixed_order "a" "a" (by decide) (by decide)).1 (by decide)

/-- C4 counterexample: with an empty declared ABV the abv entry is not
an empty-input diagnosis — `verify_abv` builds the non-empty target
`"%"`, and when the OCR text contains a standalone `%` it even reports a
match. -/
theorem verify_abv_empty_declared_matches :
    verify_abv "" "% abc" = some ⟨true, "%", "Exact match"⟩ := by
  decide

/-- C4 amended: the brand, product-type and volume entries do report
`match=false` with the empty-input diagnosis when their declared value
is empty, but the abv entry instead runs the full cascade on the target
`"%"`. -/
theorem empty_declared_field_diagnosis (ocr : String) :
    verify_brand "" ocr = some ⟨false, "", "Target text is empty"⟩ ∧
    verify_product_type "" ocr = some ⟨false, "", "Target text is empty"⟩ ∧
    verify_volume "" ocr = some ⟨false, "", "Target text is empty"⟩ ∧
    verify_abv "" ocr = check_matches_cascade "%" ocr := by
  refine ⟨?_, ?_, ?_, rfl⟩ <;>
    simp [verify_brand, verify_product_type, verify_volume, check_matches_cascade]

/-- C5: the claim is right and the code is wrong: `check_exact`
interpolates the target into the regex pattern without escaping, so `.`
is a wildcard: "12.4" is reported as an exact match inside "1234" even
though it does not occur verbatim as a whitespace-bounded substring
(`ws_bounded_occurs` is the spec's literal search). -/
theorem check_exact_dot_is_wildcard :
    check_exact "12.4" "1234" = ⟨true, "12.4", "Exact match"⟩ ∧
    ws_bounded_occurs "12.4" "1234" = false := by
  decide

/-- C8: the claim is right about the first example and wrong about the
second, and the repo's own test asserts the claim's value: the code
leaves `/` untouched (it is not in the punctuation class) and keeps the
trailing space left by the replaced final `)`, producing
"45% alc /vol 90 proof ". -/
theorem normalize_concrete_examples :
    normalize_text "  Old  Tom Distillery  " = "old tom distillery" ∧
    normalize_text "45% Alc./Vol. (90 Proof)" = "45% alc /vol 90 proof " ∧
    normalize_text "45% Alc./Vol. (90 Proof)" ≠ "45% alc vol 90 proof" := by
  decide

/-- C3 counterexample: normalization is not idempotent: `"."`
normalizes to `" "` (the punctuation becomes a space and nothing strips
it afterwards), which normalizes to `""`. -/
theorem normalize_not_idempotent :
    normalize_text (normalize_text ".") ≠ normalize_text "." := by
  decide

/-- C10 counterexample: a string of punctuation characters does not
normalize to the empty string but to a single space — yet
`check_normalized` still reports a match on two such strings. -/
theorem punct_only_normalizes_to_space :
    normalize_text "." ≠ "" ∧
    check_normalized "." "," = ⟨true, ".", "Normalized text match"⟩ := by
  decide

/-- C10 amended: whenever two non-empty strings both normalize to the
empty string (whitespace-only strings do; punctuation-only strings
normalize to a single space instead), `check_normalized` reports
`match=true` with comment "Normalized text match". -/
theorem check_normalized_empty_normalizations (t s : String) (ht : t ≠ "") (hs : s ≠ "")
    (hnt : normalize_text t = "") (hns : normalize_text s = "") :
    check_normalized t s = ⟨true, t, "Normalized text match"⟩ := by
  have hg : ¬ (t = "" ∨ s = "") := by simp [ht, hs]
  have hm : searchWS ("" : String).data ("" : String).data = true := by decide
  simp [check_normalized, hg, hnt, hns, hm]

/-- Witness for C10 at a whitespace-only target and source. -/
theorem check_normalized_empty_normalizations_witness :
    check_normalized " " "\t" = ⟨true, " ", "Normalized text match"⟩ :=
  check_normalized_empty_normalizations " " "\t" (by decide) (by decide) (by decide) (by decide)

/-- A prefix of a list is a prefix of any right-extension of it. -/
theorem isPrefixOf_append_of_isPrefixOf (p q t : List Char) (h : p.isPrefixOf q = true) :
    p.isPrefixOf (q ++ t) = true := by
  induction p generalizing q with
  | nil => simp [List.isPrefixOf]
  | cons a as ih =>
    cases q with
    | nil => simp [List.isPrefixOf] at h
    | cons b bs =>
      simp only [List.isPrefixOf, Bool.and_eq_true] at h
      simp only [List.cons_append, List.isPrefixOf, Bool.and_eq_true]
      exact ⟨h.1, ih bs h.2⟩

/-- String-level version of `isPrefixOf_append_of_isPrefixOf`. -/
theorem strHasPrefix_append_left (p q x : String) (h : strHasPrefix p q = true) :
    strHasPrefix p (q ++ x) = true := by
  simp only [strHasPrefix, String.data_append]
  exact isPrefixOf_append_of_isPrefixOf _ _ _ h

/-- Every result `check_fuzzy` actually returns is self-consistent (its
comments are the empty-input diagnosis, "Fuzzy match: ..." or
"No match. Closest text: ..."). -/
theorem fuzzy_self_consistent (t s : String) (r : VerificationResult)
    (h : check_fuzzy t s = some r) : self_consistent r = true := by
  unfold check_fuzzy at h
  split at h
  · simp only [Option.some.injEq] at h
    subst h
    simp [self_consistent]
  · split at h
    · exact absurd h (by simp)
    · simp only [Option.some.injEq] at h
      subst h
      rename_i best_text best_ratio heq
      cases hd : decide (92 ≤ round1 best_ratio)
      · simp only [self_consistent, hd, Bool.false_eq_true, if_false, Bool.or_eq_true]
        exact Or.inr (strHasPrefix_append_left _ _ _ (strHasPrefix_append_left _ _ _
          (strHasPrefix_append_left _ _ _ (strHasPrefix_append_left _ _ _ (by decide)))))
      · simp only [self_consistent, hd, if_true, Bool.or_eq_true]
        exact Or.inr (strHasPrefix_append_left _ _ _ (strHasPrefix_append_left _ _ _
          (strHasPrefix_append_left _ _ _ (strHasPrefix_append_left _ _ _ (by decide)))))

/-- C9 amended: every `VerificationResult` the cascade returns is
self-consistent: `match=true` implies the comment names the matching
strategy, `match=false` implies it is the empty-input diagnosis or
cites the closest fuzzy candidate.  (The bare exact/normalized
strategies violate this with their "No match" comment, see the
counterexample, but the cascade never surfaces those results.) -/
theorem cascade_self_consistent (t s : String) (r : VerificationResult)
    (h : check_matches_cascade t s = some r) : self_consistent r = true := by
  unfold check_matches_cascade at h
  split at h
  · simp only [Option.some.injEq] at h
    subst h
    simp [self_consistent]
  · rename_i hg
    split at h
    · rename_i hm
      simp only [Option.some.injEq] at h
      subst h
      simp only [check_exact, if_neg hg] at hm ⊢
      simp [self_consistent, hm]
    · rename_i hm1
      split at h
      · rename_i hm2
        simp only [Option.some.injEq] at h
        subst h
        simp only [check_normalized, if_neg hg] at hm2 ⊢
        simp [self_consistent, hm2]
      · exact fuzzy_self_consistent t s r h

/-- Witness for C9 at target "a", source "a". -/
theorem cascade_self_consistent_witness : self_consistent ⟨true, "a", "Exact match"⟩ = true :=
  cascade_self_consistent "a" "a" ⟨true, "a", "Exact match"⟩ (by decide)

/-- C9 counterexample: `check_exact` itself, on failure, returns the
bare comment "No match", which neither explains an unusable input nor
cites a closest candidate. -/
theorem exact_no_match_not_self_consistent :
    self_consistent (check_exact "a" "b") = false ∧
    check_exact "a" "b" = ⟨false, "a", "No match"⟩ := by
  decide

/-- C6 amended: whenever `verify_all` returns (i.e. the fuzzy crash of
C1 is not hit), the mapping has exactly the five keys `brand_name`,
`product_type`, `abv`, `volume`, `warning`, in insertion order — the
second key is `product_type`, not `product_name` as the claim says. -/
theorem verify_all_keys (inp : VerificationInput) (ocr : String)
    (l : List (String × VerificationResult)) (h : verify_all inp ocr = some l) :
    l.map Prod.fst = ["brand_name", "product_type", "abv", "volume", "warning"] := by
  simp only [verify_all, Option.bind_eq_bind, Option.bind_eq_some, Option.pure_def,
    Option.some.injEq] at h
  obtain ⟨a, ha, b, hb, c, hc, d, hd, e, he, hl⟩ := h
  subst hl
  rfl

set_option maxRecDepth 4000 in
/-- Witness for C6 on the all-empty input. -/
theorem verify_all_keys_witness :
    ([("brand_name", (⟨false, "", "Target text is empty"⟩ : VerificationResult)),
      ("product_type", ⟨false, "", "Target text is empty"⟩),
      ("abv", ⟨false, "%", "Target text is empty"⟩),
      ("volume", ⟨false, "", "Target text is empty"⟩),
      ("warning", ⟨false, title_text ++ "\n" ++ pregnancy_text ++ "\n" ++ drive_health_text,
        "Sections not found: " ++
          (title_text ++ "\n" ++ pregnancy_text ++ "\n" ++ drive_health_text)⟩)].map Prod.fst) =
    ["brand_name", "product_type", "abv", "volume", "warning"] :=
  verify_all_keys ⟨"", "", "", ""⟩ "" _ (by decide)

set_option maxRecDepth 4000 in
/-- C6 counterexample: at a concrete input the key list is
`brand_name, product_type, abv, volume, warning`; no `product_name` key
exists. -/
theorem verify_all_no_product_name_key :
    (verify_all ⟨"", "", "", ""⟩ "").map (fun l => l.map Prod.fst) =
      some ["brand_name", "product_type", "abv", "volume", "warning"] ∧
    "product_name" ∉ ["brand_name", "product_type", "abv", "volume", "warning"] := by
  decide

/-- C7 amended: whenever the three section cascades return (i.e. the
fuzzy crash of C1 is not hit), `verify_gov_warning` reports the
conjunction of the three sub-matches, and on failure its comment lists
exactly the sections that did not match, newline-joined, in their
original declared wording. -/
theorem gov_warning_sections (ocr : String) (r1 r2 r3 : VerificationResult)
    (h1 : check_matches_cascade title_text ocr = some r1)
    (h2 : check_matches_cascade pregnancy_text ocr = some r2)
    (h3 : check_matches_cascade drive_health_text ocr = some r3) :
    verify_gov_warning ocr = some
      ⟨r1.«match» && (r2.«match» && r3.«match»),
       String.intercalate "\n" [title_text, pregnancy_text, drive_health_text],
       if r1.«match» && (r2.«match» && r3.«match») then "Full government warning found"
       else "Sections not found: " ++ String.intercalate "\n"
         ((([(r1.«match», title_text), (r2.«match», pregnancy_text),
             (r3.«match», drive_health_text)].filter fun p => !p.1).map Prod.snd))⟩ := by
  have e1 : r1.expected = title_text := cascade_expected _ _ _ h1
  have e2 : r2.expected = pregnancy_text := cascade_expected _ _ _ h2
  have e3 : r3.expected = drive_health_text := cascade_expected _ _ _ h3
  unfold verify_gov_warning
  rw [h1, h2, h3]
  simp only [Option.bind_eq_bind, Option.some_bind, Option.pure_def, Option.some.injEq]
  cases hm1 : r1.«match» <;> cases hm2 : r2.«match» <;> cases hm3 : r3.«match» <;>
    simp [hm1, hm2, hm3, e1, e2, e3, List.all, List.filter]

/-- Witness for C7 on empty OCR text: nothing matches and all three
sections are listed. -/
theorem gov_warning_sections_witness :
    verify_gov_warning "" = some
      ⟨false, String.intercalate "\n" [title_text, pregnancy_text, drive_health_text],
       "Sections not found: " ++
         String.intercalate "\n" [title_text, pregnancy_text, drive_health_text]⟩ := by
  exact gov_warning_sections "" ⟨false, title_text, "Target text is empty"⟩
    ⟨false, pregnancy_text, "Target text is empty"⟩
    ⟨false, drive_health_text, "Target text is empty"⟩ (by decide) (by decide) (by decide)

/-- C7 counterexample: on the one-token OCR text "x" the claim fails as
stated — `verify_gov_warning` does not return a result at all; the
title section's fuzzy step raises `IndexError` (modelled `none`). -/
theorem gov_warning_crashes_on_tiny_ocr : verify_gov_warning "x" = none := by
  decide

/-- A valid codepoint round-trips through `Char.ofNat`. -/
theorem toNat_ofNat_of_valid {n : Nat} (h : n.isValidChar) : (Char.ofNat n).toNat = n := by
  rw [Char.ofNat, dif_pos h]
  rfl

/-- Lowering a character twice is the same as lowering it once (the
image of `Char.toLower` contains no basic latin capitals). -/
theorem toLower_toLower (c : Char) : c.toLower.toLower = c.toLower := by
  unfold Char.toLower
  by_cases h : c.toNat ≥ 65 ∧ c.toNat ≤ 90
  · rw [if_pos h]
    have hv : (c.toNat + 32).isValidChar := Or.inl (by omega)
    rw [if_neg]
    rw [toNat_ofNat_of_valid hv]
    omega
  · rw [if_neg h, if_neg h]

/-- True when the list does not start with a whitespace character. -/
def headNotSpace : List Char → Bool
  | [] => true
  | c :: _ => !isSpaceChar c

/-- True when `c` and the head of the list are not both whitespace. -/
def pairOk (c : Char) : List Char → Bool
  | [] => true
  | d :: _ => !(isSpaceChar c && isSpaceChar d)

/-- No two adjacent whitespace characters anywhere in the list. -/
def noAdjSpaces : List Char → Bool
  | c :: d :: rest => (!(isSpaceChar c && isSpaceChar d)) && noAdjSpaces (d :: rest)
  | _ => true

/-- Cons unfolding of `noAdjSpaces`. -/
theorem noAdjSpaces_cons (c : Char) (l : List Char) :
    noAdjSpaces (c :: l) = (pairOk c l && noAdjSpaces l) := by
  cases l <;> rfl

/-- Characters of a collapsed list come from the input or are the
single space, and every whitespace character of the output is the
single space. -/
theorem mem_collapseGo (b : Bool) (l : List Char) (c : Char) (h : c ∈ collapseGo b l) :
    (c = ' ' ∨ c ∈ l) ∧ (isSpaceChar c = true → c = ' ') := by
  induction l generalizing b with
  | nil => simp [collapseGo] at h
  | cons a as ih =>
    by_cases ha : isSpaceChar a = true
    · by_cases hb : b = true
      · subst hb
        simp only [collapseGo, ha, if_true] at h
        rcases ih true h with ⟨h1, h2⟩
        exact ⟨h1.imp_right (List.mem_cons_of_mem a), h2⟩
      · replace hb : b = false := by revert hb; cases b <;> simp
        subst hb
        simp only [collapseGo, ha, if_true, Bool.false_eq_true, if_false, List.mem_cons] at h
        rcases h with h | h
        · subst h
          exact ⟨Or.inl rfl, fun _ => rfl⟩
        · rcases ih true h with ⟨h1, h2⟩
          exact ⟨h1.imp_right (List.mem_cons_of_mem a), h2⟩
    · simp only [collapseGo, ha, Bool.false_eq_true, if_false, List.mem_cons] at h
      rcases h with h | h
      · subst h
        exact ⟨Or.inr (List.mem_cons_self c as), fun hs => absurd hs ha⟩
      · rcases ih false h with ⟨h1, h2⟩
        exact ⟨h1.imp_right (List.mem_cons_of_mem a), h2⟩

/-- Collapsing leaves no two adjacent whitespace characters, and after
a space has just been emitted the output cannot start with one. -/
theorem collapseGo_noAdj (l : List Char) : ∀ b : Bool,
    noAdjSpaces (collapseGo b l) = true ∧
    (b = true → headNotSpace (collapseGo b l) = true) := by
  induction l with
  | nil => intro b; exact ⟨rfl, fun _ => rfl⟩
  | cons a as ih =>
    intro b
    by_cases ha : isSpaceChar a = true
    · cases b with
      | true =>
        simp only [collapseGo, ha, if_true]
        exact ⟨(ih true).1, fun _ => (ih true).2 rfl⟩
      | false =>
        simp only [collapseGo, ha, if_true, Bool.false_eq_true, if_false]
        refine ⟨?_, ?_⟩
        · rw [noAdjSpaces_cons, Bool.and_eq_true]
          refine ⟨?_, (ih true).1⟩
          have hh := (ih true).2 rfl
          have hsp : isSpaceChar ' ' = true := by decide
          cases hcg : collapseGo true as with
          | nil => rfl
          | cons d ds =>
            rw [hcg] at hh
            simp only [headNotSpace, Bool.not_eq_true'] at hh
            simp [pairOk, hsp, hh]
        · intro h
          simp at h
    · have hcol : ∀ b : Bool, collapseGo b (a :: as) = a :: collapseGo false as := by
        intro b
        cases b <;> simp [collapseGo, ha]
      rw [hcol b]
      constructor
      · rw [noAdjSpaces_cons, Bool.and_eq_true]
        refine ⟨?_, (ih false).1⟩
        cases hcg : collapseGo false as with
        | nil => rfl
        | cons d ds => simp [pairOk, ha]
      · intro _
        simp [headNotSpace, ha]

/-- Collapsing is the identity on lists whose whitespace characters are
all the single space with no two adjacent. -/
theorem collapseGo_id (l : List Char) (hs : ∀ c ∈ l, isSpaceChar c = true → c = ' ')
    (hn : noAdjSpaces l = true) :
    collapseGo false l = l ∧ (headNotSpace l = true → collapseGo true l = l) := by
  induction l with
  | nil => exact ⟨rfl, fun _ => rfl⟩
  | cons a as ih =>
    rw [noAdjSpaces_cons, Bool.and_eq_true] at hn
    have ihs : ∀ c ∈ as, isSpaceChar c = true → c = ' ' :=
      fun c hc => hs c (List.mem_cons_of_mem a hc)
    rcases ih ihs hn.2 with ⟨ih1, ih2⟩
    by_cases ha : isSpaceChar a = true
    · have haa : a = ' ' := hs a (List.mem_cons_self a as) ha
      have htail : collapseGo true as = as := by
        apply ih2
        cases as with
        | nil => rfl
        | cons d ds =>
          have := hn.1
          simp only [pairOk, ha, Bool.true_and] at this
          simp [headNotSpace, this]
      have hsp : isSpaceChar ' ' = true := by decide
      constructor
      · simp only [collapseGo, ha, if_true, Bool.false_eq_true, if_false, htail, haa, hsp]
      · intro h
        simp [headNotSpace, ha] at h
    · constructor
      · simp [collapseGo, ha, ih1]
      · intro _
        simp [collapseGo, ha, ih1]

/-- Dropping trailing whitespace yields a prefix of the input. -/
theorem dropTrailingSpace_prefix_self (l : List Char) : dropTrailingSpace l <+: l := by
  induction l with
  | nil => exact List.nil_prefix
  | cons a as ih =>
    cases h : dropTrailingSpace as with
    | nil =>
      simp only [dropTrailingSpace, h]
      by_cases hsp : isSpaceChar a = true
      · simp only [hsp, if_true]
        exact List.nil_prefix
      · simp only [hsp, Bool.false_eq_true, if_false]
        exact ⟨as, rfl⟩
    | cons d ds =>
      simp only [dropTrailingSpace, h]
      rw [h] at ih
      rcases ih with ⟨t, ht⟩
      exact ⟨t, by rw [List.cons_append, ht]⟩

/-- `noAdjSpaces` restricts to prefixes. -/
theorem noAdjSpaces_of_prefix (p l : List Char) (hp : p <+: l) (hn : noAdjSpaces l = true) :
    noAdjSpaces p = true := by
  induction p generalizing l with
  | nil => rfl
  | cons a as ih =>
    rcases hp with ⟨t, ht⟩
    subst ht
    rw [List.cons_append] at hn
    rw [noAdjSpaces_cons, Bool.and_eq_true] at hn ⊢
    refine ⟨?_, ih (as ++ t) ⟨t, rfl⟩ hn.2⟩
    have := hn.1
    cases as with
    | nil => rfl
    | cons b bs =>
      rw [List.cons_append] at this
      exact this

/-- `noAdjSpaces` survives dropping a whitespace prefix. -/
theorem noAdjSpaces_dropWhile (l : List Char) (hn : noAdjSpaces l = true) :
    noAdjSpaces (l.dropWhile isSpaceChar) = true := by
  induction l with
  | nil => rfl
  | cons a as ih =>
    rw [noAdjSpaces_cons, Bool.and_eq_true] at hn
    by_cases ha : isSpaceChar a = true
    · rw [List.dropWhile_cons_of_pos ha]
      exact ih hn.2
    · rw [List.dropWhile_cons_of_neg ha]
      rw [noAdjSpaces_cons, Bool.and_eq_true]
      exact hn

/-- A map that fixes every element of a list fixes the list. -/
theorem map_eq_self_of_mem (l : List Char) (f : Char → Char) (h : ∀ c ∈ l, f c = c) :
    l.map f = l := by
  induction l with
  | nil => rfl
  | cons a as ih =>
    rw [List.map_cons, h a (List.mem_cons_self a as),
      ih fun c hc => h c (List.mem_cons_of_mem a hc)]

/-- After lowering and punctuation replacement, every character is
fixed by lowering and is not punctuation. -/
theorem mem_punct_lower (v : List Char) (c : Char) (h : c ∈ punctToSpace (lowerChars v)) :
    c.toLower = c ∧ isPunctChar c = false := by
  simp only [punctToSpace, lowerChars, List.map_map, List.mem_map, Function.comp] at h
  obtain ⟨b, _, hbc⟩ := h
  by_cases hp : isPunctChar (Char.toLower b) = true
  · rw [hp, if_pos rfl] at hbc
    subst hbc
    exact ⟨by decide, by decide⟩
  · rw [if_neg hp] at hbc
    subst hbc
    exact ⟨toLower_toLower b, by simpa using hp⟩

/-- Stripping only removes characters. -/
theorem mem_stripChars (l : List Char) : ∀ c ∈ stripChars l, c ∈ l := by
  intro c hc
  have h1 : c ∈ l.dropWhile isSpaceChar :=
    (dropTrailingSpace_prefix_self (l.dropWhile isSpaceChar)).sublist.subset hc
  exact (List.dropWhile_sublist isSpaceChar).subset h1

/-- Core of C3 amended: applying the normalization pipeline to an
already-normalized character list strips its boundary spaces and does
nothing else. -/
theorem norm_chars_idem (v : List Char) :
    collapseSpaces (punctToSpace (lowerChars
      (stripChars (collapseSpaces (punctToSpace (lowerChars v)))))) =
    stripChars (collapseSpaces (punctToSpace (lowerChars v))) := by
  set w := punctToSpace (lowerChars v) with hw
  set y := collapseSpaces w with hy
  set z := stripChars y with hz
  have hychar : ∀ c ∈ y, (c.toLower = c ∧ isPunctChar c = false) ∧
      (isSpaceChar c = true → c = ' ') := by
    intro c hc
    rcases mem_collapseGo false w c hc with ⟨h1, h2⟩
    refine ⟨?_, h2⟩
    rcases h1 with rfl | hcw
    · exact ⟨by decide, by decide⟩
    · exact mem_punct_lower v c hcw
  have hzmem : ∀ c ∈ z, c ∈ y := by
    rw [hz]
    exact mem_stripChars y
  have hynoadj : noAdjSpaces y = true := (collapseGo_noAdj w false).1
  have hznoadj : noAdjSpaces z = true := by
    rw [hz]
    exact noAdjSpaces_of_prefix _ _ (dropTrailingSpace_prefix_self _)
      (noAdjSpaces_dropWhile y hynoadj)
  have hlower : lowerChars z = z :=
    map_eq_self_of_mem _ _ fun c hc => (hychar c (hzmem c hc)).1.1
  have hpunct : punctToSpace z = z := by
    apply map_eq_self_of_mem
    intro c hc
    have := (hychar c (hzmem c hc)).1.2
    simp [this]
  have hcollapse : collapseSpaces z = z :=
    (collapseGo_id z (fun c hc => (hychar c (hzmem c hc)).2) hznoadj).1
  rw [hlower, hpunct, hcollapse]

/-- C3 amended: `normalize_text` is not idempotent, but a second
application only strips the boundary spaces of the first:
`normalize(normalize(x)) = strip(normalize(x))` for every string; in
particular idempotence holds exactly when `normalize(x)` carries no
leading or trailing space. -/
theorem normalize_normalize_eq_strip (s : String) :
    normalize_text (normalize_text s) = String.mk (stripChars (normalize_text s).data) :=
  congrArg String.mk (norm_chars_idem (stripChars s.data))
